import Mathlib

/-!
Verification of the agekms adapter: the rsaoaep recipient (stanza wrapping
under RSA-OAEP-SHA256) and the gcpkms identity (registry construction and
stanza unwrapping against a Google Cloud KMS backend).

Modelling conventions:
* Go byte slices are `List Nat` whose entries are below 256 (`IsBytes`).
* The SHA-256 digest function is an abstract parameter `sha : List Nat → List Nat`
  wherever it occurs (`sha256.Sum256`), since no claim depends on its internals,
  only on it being a fixed function (determinism) and on collision-freeness,
  which is hypothesised where a claim needs it.
* The external collaborators (the KMS network client, `pem.Decode`,
  `x509.ParsePKIXPublicKey`, `rsa.EncryptOAEP`) are abstract function
  parameters; everything written in the repository itself is embedded
  concretely, including the DER serialization used by `asn1.Marshal` on an
  RSA public key, standard base64, and CRC-32 with the Castagnoli table.
* `client.Unwrap` is instrumented: it returns the result together with the
  list of `AsymmetricDecrypt` requests issued, so "zero backend calls" and
  "at most one backend call" are provable statements.
-/

namespace AgeKMS

/-- A byte list: every entry below 256. Go byte slices are modelled as
`List Nat` together with this bound where it matters. -/
def IsBytes (l : List Nat) : Prop := ∀ x ∈ l, x < 256

/-- The age stanza record. The Go field named Type is rendered `Ty`. -/
structure Stanza where
  Ty : String
  Args : List String
  Body : List Nat
  deriving DecidableEq, Repr

/-- Reversed (least-significant-bit-first) form of the Castagnoli polynomial
0x1EDC6F41, the table-generator constant behind Go crc32.Castagnoli. -/
def castagnoliReversed : Nat := 0x82F63B78

/-- One entry of the CRC-32C lookup table: eight shift-and-conditionally-xor
rounds applied to the byte index, as crc32.MakeTable computes it. -/
def crc32cEntry (n : Nat) : Nat :=
  (List.range 8).foldl
    (fun c _ => if c % 2 = 1 then Nat.xor castagnoliReversed (c / 2) else c / 2) n

/-- One byte step of Go crc32.Checksum on a reflected table:
crc becomes the table entry at (low byte of crc xor b), xored with crc shifted
right by eight bits. -/
def crc32cStep (crc b : Nat) : Nat :=
  Nat.xor (crc32cEntry (Nat.xor (crc % 256) (b % 256))) (crc / 256)

/-- Go function crc32c(data): crc32.Checksum(data, crc32.MakeTable(crc32.Castagnoli)),
that is, fold the byte steps from the all-ones seed and complement at the end. -/
def crc32c (data : List Nat) : Nat :=
  Nat.xor (data.foldl crc32cStep 0xFFFFFFFF) 0xFFFFFFFF

/-- The fields of kmspb.AsymmetricDecryptRequest the client fills in.
CiphertextCrc32C is the int64 wrapper value. -/
structure AsymmetricDecryptRequest where
  Name : String
  Ciphertext : List Nat
  CiphertextCrc32C : Int
  deriving DecidableEq, Repr

/-- The fields of kmspb.AsymmetricDecryptResponse the client could read.
The code only reads Plaintext; PlaintextCrc32C is carried to state that it
is ignored. -/
structure AsymmetricDecryptResponse where
  Plaintext : List Nat
  PlaintextCrc32C : Int
  deriving DecidableEq, Repr

/-- Errors client.Unwrap can return. -/
inductive UnwrapErr where
  /-- the literal error for a recognized stanza whose Args length is not 1 -/
  | malformed
  /-- an error from kmsClient.AsymmetricDecrypt, propagated verbatim -/
  | backend (e : String)
  /-- age.ErrIncorrectIdentity -/
  | incorrectIdentity
  deriving DecidableEq, Repr

/-- The gcpkms client after construction: the identifier-to-resource-name
registry, plus the backend decrypt operation (kmsClient.AsymmetricDecrypt with
the stored ctx already applied). The registry is an association list looked up
front-to-back, with newer inserts in front, matching Go map overwrite. -/
structure Client where
  nameByKeyID : List (String × String)
  asymmetricDecrypt : AsymmetricDecryptRequest → Except String AsymmetricDecryptResponse

/-- Method client.Unwrap, instrumented with the list of backend requests it
issues. The scan skips stanzas of other types, hard-fails on a recognized
stanza with an Args length other than one, skips recognized stanzas whose
identifier is not in the registry, and at the first resolved stanza issues
one AsymmetricDecrypt call carrying the body and its CRC-32C, returning the
response plaintext or the backend error. (The Go local req is inlined.) -/
def Unwrap (c : Client) :
    List Stanza → Except UnwrapErr (List Nat) × List AsymmetricDecryptRequest
  | [] => (.error .incorrectIdentity, [])
  | stanza :: rest =>
    if stanza.Ty ≠ "kms-rsa-oaep-sha256" then Unwrap c rest
    else if stanza.Args.length ≠ 1 then (.error .malformed, [])
    else
      match c.nameByKeyID.lookup (stanza.Args.headD "") with
      | none => Unwrap c rest
      | some name =>
        match c.asymmetricDecrypt
            ⟨name, stanza.Body, Int.ofNat (crc32c stanza.Body)⟩ with
        | .error e =>
          (.error (.backend e), [⟨name, stanza.Body, Int.ofNat (crc32c stanza.Body)⟩])
        | .ok resp =>
          (.ok resp.Plaintext, [⟨name, stanza.Body, Int.ofNat (crc32c stanza.Body)⟩])

/-- A stanza the Unwrap scan passes over without effect: either its type is
not the recognized literal, or it is recognized with exactly one argument
whose identifier does not resolve in the registry. -/
def Skips (c : Client) (s : Stanza) : Prop :=
  s.Ty ≠ "kms-rsa-oaep-sha256" ∨
    (s.Args.length = 1 ∧ c.nameByKeyID.lookup (s.Args.headD "") = none)

instance (c : Client) (s : Stanza) : Decidable (Skips c s) := by
  unfold Skips
  exact inferInstance

/-- Big-endian minimal base-256 digit list of a natural number (empty for
zero): the byte representation big.Int.Bytes would give. -/
def bytesBE (n : Nat) : List Nat := (Nat.digits 256 n).reverse

/-- Content octets of a DER INTEGER holding a nonnegative value, as Go
encoding/asn1 produces them: minimal big-endian two's complement, so the
value zero is one zero octet and a leading zero octet is inserted when the
top bit of the leading byte is set. -/
def derIntContent (n : Nat) : List Nat :=
  if n = 0 then [0]
  else if 128 ≤ (bytesBE n).headD 0 then 0 :: bytesBE n
  else bytesBE n

/-- DER length octets: short form below 128, otherwise one octet 0x80 plus
the byte count followed by the length in big-endian bytes. -/
def derLen (len : Nat) : List Nat :=
  if len < 128 then [len]
  else (128 + (bytesBE len).length) :: bytesBE len

/-- One DER INTEGER: tag 0x02, length octets, content octets. -/
def derInt (n : Nat) : List Nat :=
  2 :: (derLen (derIntContent n).length ++ derIntContent n)

/-- An rsa.PublicKey as the repository uses it: modulus N and exponent E
(both nonnegative in any valid key; E is a Go int, N a big.Int). -/
structure RSAPublicKey where
  N : Nat
  E : Nat
  deriving DecidableEq, Repr

/-- Result of Go asn1.Marshal applied to an rsa.PublicKey: a DER SEQUENCE
(tag 0x30) holding INTEGER N followed by INTEGER E. -/
def asn1Marshal (k : RSAPublicKey) : List Nat :=
  48 :: (derLen (derInt k.N ++ derInt k.E).length ++ (derInt k.N ++ derInt k.E))

/-- Go rsa.PublicKey.Size(): the modulus length in bytes, (bit length + 7) / 8. -/
def rsaSize (key : RSAPublicKey) : Nat := (Nat.size key.N + 7) / 8

/-- The standard base64 alphabet of encoding/base64.StdEncoding. -/
def b64Alphabet : List Char :=
  ['A', 'B', 'C', 'D', 'E', 'F', 'G', 'H', 'I', 'J', 'K', 'L', 'M', 'N', 'O',
   'P', 'Q', 'R', 'S', 'T', 'U', 'V', 'W', 'X', 'Y', 'Z', 'a', 'b', 'c', 'd',
   'e', 'f', 'g', 'h', 'i', 'j', 'k', 'l', 'm', 'n', 'o', 'p', 'q', 'r', 's',
   't', 'u', 'v', 'w', 'x', 'y', 'z', '0', '1', '2', '3', '4', '5', '6', '7',
   '8', '9', '+', '/']

/-- Character at a sextet index of the standard base64 alphabet. -/
def b64char (i : Nat) : Char := b64Alphabet.getD i 'A'

/-- Standard base64 with padding over a byte list, three bytes at a time:
each group of three bytes becomes four alphabet characters; a final group of
one or two bytes becomes two or three characters padded with equals signs. -/
def base64Chars : List Nat → List Char
  | [] => []
  | [a] => [b64char (a / 4), b64char (a % 4 * 16), '=', '=']
  | [a, b] =>
    [b64char (a / 4), b64char (a % 4 * 16 + b / 16), b64char (b % 16 * 4), '=']
  | a :: b :: c :: rest =>
    b64char (a / 4) :: b64char (a % 4 * 16 + b / 16) ::
      b64char (b % 16 * 4 + c / 64) :: b64char (c % 64) :: base64Chars rest

/-- Go base64.StdEncoding.EncodeToString. -/
def base64Encode (l : List Nat) : String := String.mk (base64Chars l)

namespace rsaoaep

/-- Function keyID of package rsaoaep: asn1.Marshal the public key, take the
SHA-256 digest (abstract parameter sha), and render it with standard base64. -/
def keyID (sha : List Nat → List Nat) (key : RSAPublicKey) : String :=
  base64Encode (sha (asn1Marshal key))

/-- The recipient struct of package rsaoaep: the RSA public key and its
precomputed identifier. -/
structure recipient where
  key : RSAPublicKey
  keyID : String

/-- Function NewRecipient: compute the key identifier and store it with the
key. The Go error path (asn1.Marshal failing) cannot occur here, where
marshalling is total, so the recipient is returned directly. -/
def NewRecipient (sha : List Nat → List Nat) (key : RSAPublicKey) : recipient :=
  ⟨key, keyID sha key⟩

/-- Method recipient.Wrap: OAEP-encrypt the file key under the stored public
key (rsa.EncryptOAEP with SHA-256 and nil label, abstracted as the parameter
encryptOAEP, which consumes randomness and may fail) and emit one stanza with
the protocol type literal, the stored identifier as only argument, and the
ciphertext as body. -/
def Wrap (encryptOAEP : RSAPublicKey → List Nat → Except String (List Nat))
    (r : recipient) (fileKey : List Nat) : Except String (List Stanza) :=
  match encryptOAEP r.key fileKey with
  | .error err => .error err
  | .ok wrappedKey => .ok [⟨"kms-rsa-oaep-sha256", [r.keyID], wrappedKey⟩]

end rsaoaep

namespace gcpkms

/-- Function keyID of package gcpkms, textually the same computation as the
one in package rsaoaep. -/
def keyID (sha : List Nat → List Nat) (key : RSAPublicKey) : String :=
  base64Encode (sha (asn1Marshal key))

/-- A pem.Block as the code reads it: its Type label (rendered Ty) and bytes. -/
structure PEMBlock where
  Ty : String
  Bytes : List Nat

/-- Result of x509.ParsePKIXPublicKey: some public key, of which only the
RSA case matters to the code; any other kind carries only a tag. -/
inductive PKIXPublicKey where
  | rsa (key : RSAPublicKey)
  | otherKey (kind : String)

/-- External parsing collaborators used by the registry build: pem.Decode
(only the first block matters to the code, so the rest is dropped) and
x509.ParsePKIXPublicKey. -/
structure ParseEnv where
  pemDecode : String → Option PEMBlock
  parsePKIX : List Nat → Except String PKIXPublicKey

/-- Function parsePEMEncodedRSAPublicKey: decode a PEM block, insist on the
literal block type, PKIX-parse the block bytes, and insist the parsed key is
specifically an RSA public key. -/
def parsePEMEncodedRSAPublicKey (env : ParseEnv) (pemBytes : String) :
    Except String RSAPublicKey :=
  match env.pemDecode pemBytes with
  | none => .error "no PEM blocks found"
  | some block =>
    if block.Ty ≠ "RSA PUBLIC KEY" then
      .error ("found unexpected \"" ++ block.Ty ++ "\" PEM block")
    else
      match env.parsePKIX block.Bytes with
      | .error e => .error e
      | .ok (.rsa pubKey) => .ok pubKey
      | .ok (.otherKey _) => .error "failed to parse \"RSA PUBLIC KEY\""

/-- The CryptoKeyVersion algorithm tag of a fetched public key: the three
supported RSA_DECRYPT_OAEP variants, or any other enum value together with
its String() rendering. -/
inductive Algorithm where
  | RSA_DECRYPT_OAEP_2048_SHA256
  | RSA_DECRYPT_OAEP_3072_SHA256
  | RSA_DECRYPT_OAEP_4096_SHA256
  | otherAlg (rendering : String)
  deriving DecidableEq, Repr

/-- The String() rendering of an algorithm tag, used in the unsupported-key
error message. -/
def Algorithm.render : Algorithm → String
  | .RSA_DECRYPT_OAEP_2048_SHA256 => "RSA_DECRYPT_OAEP_2048_SHA256"
  | .RSA_DECRYPT_OAEP_3072_SHA256 => "RSA_DECRYPT_OAEP_3072_SHA256"
  | .RSA_DECRYPT_OAEP_4096_SHA256 => "RSA_DECRYPT_OAEP_4096_SHA256"
  | .otherAlg s => s

/-- The fields of kmspb.GetPublicKeyResponse the code reads. -/
structure GetPublicKeyResponse where
  Algorithm : Algorithm
  Pem : String
  Name : String

/-- Errors of client.addKey. -/
inductive AddKeyErr where
  /-- an error from kmsClient.GetPublicKey, propagated verbatim -/
  | fetch (e : String)
  /-- the default case of the algorithm switch: unsupported key type -/
  | unsupportedKeyType (alg : String)
  /-- an error from parsePEMEncodedRSAPublicKey, propagated verbatim -/
  | keyParse (e : String)
  deriving DecidableEq, Repr

/-- Errors of gcpkms.NewClient. -/
inductive NewClientErr where
  /-- an error from kms.NewKeyManagementClient -/
  | kmsInit (e : String)
  /-- an addKey error wrapped with the offending configured name -/
  | keyProblem (name : String) (e : AddKeyErr)
  deriving DecidableEq, Repr

/-- External dependencies of client construction: the KMS client constructor
outcome and the GetPublicKey and AsymmetricDecrypt operations (with the
caller-supplied ctx already applied), plus the PEM and PKIX parsers. -/
structure BuildEnv where
  newKeyManagementClient : Except String Unit
  getPublicKey : String → Except String GetPublicKeyResponse
  asymmetricDecrypt : AsymmetricDecryptRequest → Except String AsymmetricDecryptResponse
  parseEnv : ParseEnv

/-- Method client.addKey: fetch the public key, switch on the algorithm tag
(the three supported variants fall through, the default errors), parse the
PEM-encoded key, compute its identifier and insert identifier to resource
name into the registry map (prepend models Go map assignment). -/
def addKey (env : BuildEnv) (sha : List Nat → List Nat)
    (m : List (String × String)) (name : String) :
    Except AddKeyErr (List (String × String)) :=
  match env.getPublicKey name with
  | .error e => .error (.fetch e)
  | .ok resp =>
    match resp.Algorithm with
    | .otherAlg s => .error (.unsupportedKeyType s)
    | _ =>
      match parsePEMEncodedRSAPublicKey env.parseEnv resp.Pem with
      | .error e => .error (.keyParse e)
      | .ok key => .ok ((keyID sha key, resp.Name) :: m)

/-- The loop of NewClient over the configured key names: the first addKey
failure aborts the build with the offending name attached to the error. -/
def addKeys (env : BuildEnv) (sha : List Nat → List Nat)
    (m : List (String × String)) :
    List String → Except NewClientErr (List (String × String))
  | [] => .ok m
  | name :: rest =>
    match addKey env sha m name with
    | .error e => .error (.keyProblem name e)
    | .ok m2 => addKeys env sha m2 rest

/-- Function gcpkms.NewClient: construct the KMS client, then addKey every
configured name in order, failing fast; on success the client holds the
finished registry and the backend decrypt operation. -/
def NewClient (env : BuildEnv) (sha : List Nat → List Nat) (names : List String) :
    Except NewClientErr Client :=
  match env.newKeyManagementClient with
  | .error e => .error (.kmsInit e)
  | .ok _ =>
    match addKeys env sha [] names with
    | .error e => .error e
    | .ok m => .ok ⟨m, env.asymmetricDecrypt⟩

end gcpkms

def w5client : Client :=
  ⟨[("id1", "projects/p/keys/k1")], fun _ => .ok ⟨[0], 0⟩⟩

def w5stanzas : List Stanza :=
  [⟨"X25519", ["abc"], [1, 2]⟩, ⟨"kms-rsa-oaep-sha256", ["nope"], [3, 4]⟩]

def w2enc : RSAPublicKey → List Nat → Except String (List Nat) :=
  fun k _ => .ok (List.replicate (rsaSize k) 0)

def w1key : RSAPublicKey := ⟨3233, 17⟩

def w1client : Client :=
  ⟨[(rsaoaep.keyID (fun _ => []) w1key, "kname")], fun _ => .ok ⟨[5, 6], 0⟩⟩

def w1enc : RSAPublicKey → List Nat → Except String (List Nat) :=
  fun _ _ => .ok [9]

def w7env : gcpkms.BuildEnv :=
  ⟨.ok (), fun n => .ok ⟨.otherAlg "GOOGLE_SYMMETRIC_ENCRYPTION", "pem", n⟩,
   fun _ => .ok ⟨[0], 0⟩, ⟨fun _ => none, fun _ => .error "x"⟩⟩

theorem Unwrap_skip (c : Client) (s : Stanza) (rest : List Stanza) (h : Skips c s) :
    Unwrap c (s :: rest) = Unwrap c rest := by
  simp only [Unwrap]
  rcases h with h | ⟨h1, h2⟩
  · rw [if_pos h]
  · by_cases hty : s.Ty = "kms-rsa-oaep-sha256"
    · rw [if_neg (not_not_intro hty), if_neg (not_not_intro h1)]
      simp only [h2]
    · rw [if_pos hty]

theorem Unwrap_skips_before (c : Client) (pre l : List Stanza)
    (h : ∀ s ∈ pre, Skips c s) :
    Unwrap c (pre ++ l) = Unwrap c l := by
  induction pre with
  | nil => rfl
  | cons s pre ih =>
    rw [List.cons_append, Unwrap_skip c s _ (h s (by simp)),
      ih fun s hs => h s (by simp [hs])]

theorem Unwrap_match_error (c : Client) (st : Stanza) (rest : List Stanza)
    (name : String) (e : String)
    (hty : st.Ty = "kms-rsa-oaep-sha256") (hargs : st.Args.length = 1)
    (hlook : c.nameByKeyID.lookup (st.Args.headD "") = some name)
    (hdec : c.asymmetricDecrypt ⟨name, st.Body, Int.ofNat (crc32c st.Body)⟩ =
      .error e) :
    Unwrap c (st :: rest) =
      (.error (.backend e), [⟨name, st.Body, Int.ofNat (crc32c st.Body)⟩]) := by
  simp only [Unwrap]
  rw [if_neg (not_not_intro hty), if_neg (not_not_intro hargs)]
  simp only [hlook]
  rw [hdec]

theorem Unwrap_match_ok (c : Client) (st : Stanza) (rest : List Stanza)
    (name : String) (resp : AsymmetricDecryptResponse)
    (hty : st.Ty = "kms-rsa-oaep-sha256") (hargs : st.Args.length = 1)
    (hlook : c.nameByKeyID.lookup (st.Args.headD "") = some name)
    (hdec : c.asymmetricDecrypt ⟨name, st.Body, Int.ofNat (crc32c st.Body)⟩ =
      .ok resp) :
    Unwrap c (st :: rest) =
      (.ok resp.Plaintext, [⟨name, st.Body, Int.ofNat (crc32c st.Body)⟩]) := by
  simp only [Unwrap]
  rw [if_neg (not_not_intro hty), if_neg (not_not_intro hargs)]
  simp only [hlook]
  rw [hdec]

/-- C5: a stanza list with no recognized-type entry, or whose recognized
entries (each with one argument) all carry identifiers absent from the
registry, makes Unwrap return the IncorrectIdentity sentinel with zero
backend calls; such stanzas are skipped, not errors. -/
theorem unwrap_all_skipped_incorrectIdentity (c : Client) (stanzas : List Stanza)
    (h : ∀ s ∈ stanzas, Skips c s) :
    Unwrap c stanzas = (.error .incorrectIdentity, []) := by
  have h0 := Unwrap_skips_before c stanzas [] h
  rw [List.append_nil] at h0
  rw [h0]
  rfl

theorem unwrap_all_skipped_incorrectIdentity_witness :
    Unwrap w5client w5stanzas = (.error .incorrectIdentity, []) :=
  unwrap_all_skipped_incorrectIdentity w5client w5stanzas (by decide)

/-- C4: when the scan reaches (all earlier stanzas being skipped) a stanza of
the recognized type whose Args length is not one, Unwrap hard-fails with the
malformed-stanza error, for every registry and backend, with zero backend
calls. -/
theorem unwrap_malformed_args (c : Client) (pre : List Stanza) (st : Stanza)
    (post : List Stanza) (hpre : ∀ s ∈ pre, Skips c s)
    (hty : st.Ty = "kms-rsa-oaep-sha256") (hargs : st.Args.length ≠ 1) :
    Unwrap c (pre ++ st :: post) = (.error .malformed, []) := by
  rw [Unwrap_skips_before c pre _ hpre]
  simp only [Unwrap]
  rw [if_neg (not_not_intro hty), if_pos hargs]

theorem unwrap_malformed_args_witness :
    Unwrap w5client [⟨"kms-rsa-oaep-sha256", [], [7]⟩] = (.error .malformed, []) :=
  unwrap_malformed_args w5client [] ⟨"kms-rsa-oaep-sha256", [], [7]⟩ []
    (by simp) rfl (by decide)

/-- C6: Unwrap issues at most one backend call, and when it issues one the
overall outcome is exactly that call's outcome: the response plaintext on
success, the backend error verbatim on failure; scanning never resumes after
the call. -/
theorem unwrap_at_most_one_call (c : Client) (stanzas : List Stanza) :
    (Unwrap c stanzas).2.length ≤ 1 ∧
      ∀ req, (Unwrap c stanzas).2 = [req] →
        (∀ e, c.asymmetricDecrypt req = .error e →
            (Unwrap c stanzas).1 = .error (.backend e)) ∧
        (∀ resp, c.asymmetricDecrypt req = .ok resp →
            (Unwrap c stanzas).1 = .ok resp.Plaintext) := by
  induction stanzas with
  | nil =>
    refine ⟨by simp [Unwrap], ?_⟩
    intro req h
    simp [Unwrap] at h
  | cons st rest ih =>
    by_cases hty : st.Ty = "kms-rsa-oaep-sha256"
    · by_cases hargs : st.Args.length = 1
      · cases hlook : c.nameByKeyID.lookup (st.Args.headD "") with
        | none =>
          rw [Unwrap_skip c st rest (Or.inr ⟨hargs, hlook⟩)]
          exact ih
        | some name =>
          cases hdec : c.asymmetricDecrypt
              ⟨name, st.Body, Int.ofNat (crc32c st.Body)⟩ with
          | error e =>
            rw [Unwrap_match_error c st rest name e hty hargs hlook hdec]
            refine ⟨by simp, ?_⟩
            intro req h
            have h' : (⟨name, st.Body, Int.ofNat (crc32c st.Body)⟩ :
                AsymmetricDecryptRequest) = req := by
              injection h
            subst h'
            constructor
            · intro e2 h2
              rw [hdec] at h2
              cases h2
              rfl
            · intro resp2 h2
              rw [hdec] at h2
              cases h2
          | ok resp =>
            rw [Unwrap_match_ok c st rest name resp hty hargs hlook hdec]
            refine ⟨by simp, ?_⟩
            intro req h
            have h' : (⟨name, st.Body, Int.ofNat (crc32c st.Body)⟩ :
                AsymmetricDecryptRequest) = req := by
              injection h
            subst h'
            constructor
            · intro e2 h2
              rw [hdec] at h2
              cases h2
            · intro resp2 h2
              rw [hdec] at h2
              cases h2
              rfl
      · have h0 : Unwrap c (st :: rest) = (.error .malformed, []) := by
          simp only [Unwrap]
          rw [if_neg (not_not_intro hty), if_pos hargs]
        rw [h0]
        refine ⟨by simp, ?_⟩
        intro req h
        simp at h
    · rw [Unwrap_skip c st rest (Or.inl hty)]
      exact ih

/-- C9: at the first recognized-and-resolved stanza, the single backend
request carries the resolved resource name, the stanza body as ciphertext,
and the CRC-32C (Castagnoli) checksum of the body; on backend success the
response plaintext is returned as-is, for every value of the response's own
checksum field (it is never verified). -/
theorem unwrap_crc32c_request (c : Client) (pre : List Stanza) (st : Stanza)
    (post : List Stanza) (name : String)
    (hpre : ∀ s ∈ pre, Skips c s)
    (hty : st.Ty = "kms-rsa-oaep-sha256") (hargs : st.Args.length = 1)
    (hlook : c.nameByKeyID.lookup (st.Args.headD "") = some name) :
    (Unwrap c (pre ++ st :: post)).2 =
        [⟨name, st.Body, Int.ofNat (crc32c st.Body)⟩] ∧
      ∀ resp,
        c.asymmetricDecrypt ⟨name, st.Body, Int.ofNat (crc32c st.Body)⟩ = .ok resp →
        (Unwrap c (pre ++ st :: post)).1 = .ok resp.Plaintext := by
  rw [Unwrap_skips_before c pre _ hpre]
  cases hdec : c.asymmetricDecrypt ⟨name, st.Body, Int.ofNat (crc32c st.Body)⟩ with
  | error e =>
    rw [Unwrap_match_error c st post name e hty hargs hlook hdec]
    refine ⟨rfl, ?_⟩
    intro resp h2
    cases h2
  | ok resp =>
    rw [Unwrap_match_ok c st post name resp hty hargs hlook hdec]
    refine ⟨rfl, ?_⟩
    intro resp2 h2
    cases h2
    rfl

theorem unwrap_crc32c_request_witness :
    (Unwrap w5client [⟨"kms-rsa-oaep-sha256", ["id1"], [3, 4]⟩]).2 =
        [⟨"projects/p/keys/k1", [3, 4], Int.ofNat (crc32c [3, 4])⟩] ∧
      ∀ resp,
        w5client.asymmetricDecrypt
            ⟨"projects/p/keys/k1", [3, 4], Int.ofNat (crc32c [3, 4])⟩ = .ok resp →
        (Unwrap w5client [⟨"kms-rsa-oaep-sha256", ["id1"], [3, 4]⟩]).1 =
          .ok resp.Plaintext :=
  unwrap_crc32c_request w5client [] ⟨"kms-rsa-oaep-sha256", ["id1"], [3, 4]⟩ []
    "projects/p/keys/k1" (by simp) rfl rfl (by decide)

theorem bytesBE_inj {a b : Nat} (h : bytesBE a = bytesBE b) : a = b := by
  have h2 : Nat.digits 256 a = Nat.digits 256 b := by
    have h3 := congrArg List.reverse h
    simpa [bytesBE] using h3
  calc a = Nat.ofDigits 256 (Nat.digits 256 a) := (Nat.ofDigits_digits 256 a).symm
    _ = Nat.ofDigits 256 (Nat.digits 256 b) := by rw [h2]
    _ = b := Nat.ofDigits_digits 256 b

theorem bytesBE_ne_nil {n : Nat} (h : n ≠ 0) : bytesBE n ≠ [] := by
  simp [bytesBE, Nat.digits_ne_nil_iff_ne_zero, h]

theorem derIntContent_val (n : Nat) :
    Nat.ofDigits 256 (derIntContent n).reverse = n := by
  unfold derIntContent
  by_cases h0 : n = 0
  · simp [h0, Nat.ofDigits_cons, Nat.ofDigits_nil]
  · rw [if_neg h0]
    by_cases hpad : 128 ≤ (bytesBE n).headD 0
    · rw [if_pos hpad]
      simp [bytesBE, List.reverse_cons, List.reverse_reverse, Nat.ofDigits_append,
        Nat.ofDigits_cons, Nat.ofDigits_nil, Nat.ofDigits_digits]
    · rw [if_neg hpad]
      simp [bytesBE, List.reverse_reverse, Nat.ofDigits_digits]

theorem derIntContent_inj {a b : Nat} (h : derIntContent a = derIntContent b) :
    a = b := by
  have h2 := congrArg (fun l => Nat.ofDigits 256 l.reverse) h
  simpa [derIntContent_val] using h2

theorem derLen_append_inj {L M : Nat} {x y : List Nat}
    (h : derLen L ++ x = derLen M ++ y) : L = M ∧ x = y := by
  unfold derLen at h
  by_cases hL : L < 128 <;> by_cases hM : M < 128
  · rw [if_pos hL, if_pos hM, List.singleton_append, List.singleton_append] at h
    injection h with h1 h2
    exact ⟨h1, h2⟩
  · rw [if_pos hL, if_neg hM, List.singleton_append, List.cons_append] at h
    injection h with h1 _
    have hlen : 1 ≤ (bytesBE M).length :=
      List.length_pos.mpr (bytesBE_ne_nil (by omega))
    omega
  · rw [if_neg hL, if_pos hM, List.cons_append, List.singleton_append] at h
    injection h with h1 _
    have hlen : 1 ≤ (bytesBE L).length :=
      List.length_pos.mpr (bytesBE_ne_nil (by omega))
    omega
  · rw [if_neg hL, if_neg hM, List.cons_append, List.cons_append] at h
    injection h with h1 h2
    have hlen : (bytesBE L).length = (bytesBE M).length := by omega
    obtain ⟨hb, hxy⟩ := List.append_inj h2 hlen
    exact ⟨bytesBE_inj hb, hxy⟩

theorem derInt_append_inj {a b : Nat} {x y : List Nat}
    (h : derInt a ++ x = derInt b ++ y) : a = b ∧ x = y := by
  unfold derInt at h
  rw [List.cons_append, List.cons_append, List.append_assoc, List.append_assoc] at h
  injection h with _ h
  obtain ⟨hlen, h2⟩ := derLen_append_inj h
  obtain ⟨hc, hxy⟩ := List.append_inj h2 hlen
  exact ⟨derIntContent_inj hc, hxy⟩

theorem asn1Marshal_inj {k1 k2 : RSAPublicKey} (h : asn1Marshal k1 = asn1Marshal k2) :
    k1 = k2 := by
  unfold asn1Marshal at h
  injection h with _ h
  obtain ⟨_, hp⟩ := derLen_append_inj h
  obtain ⟨hn, he⟩ := derInt_append_inj hp
  have he2 : k1.E = k2.E :=
    (@derInt_append_inj k1.E k2.E [] [] (by simpa using he)).1
  cases k1
  cases k2
  simp_all

theorem b64char_fin_inj : ∀ i j : Fin 64, b64char i.val = b64char j.val → i = j := by
  decide

theorem b64char_fin_ne_pad : ∀ i : Fin 64, b64char i.val ≠ '=' := by
  decide

theorem b64char_inj {i j : Nat} (hi : i < 64) (hj : j < 64)
    (h : b64char i = b64char j) : i = j :=
  congrArg Fin.val (b64char_fin_inj ⟨i, hi⟩ ⟨j, hj⟩ h)

theorem b64char_ne_pad {i : Nat} (hi : i < 64) : b64char i ≠ '=' :=
  b64char_fin_ne_pad ⟨i, hi⟩

theorem base64Chars_inj_n (n : Nat) : ∀ xs ys : List Nat, xs.length ≤ n →
    IsBytes xs → IsBytes ys → base64Chars xs = base64Chars ys → xs = ys := by
  induction n with
  | zero =>
    intro xs ys hlen hx hy h
    have hxnil : xs = [] := List.length_eq_zero.mp (Nat.le_zero.mp hlen)
    subst hxnil
    rcases ys with _ | ⟨a2, _ | ⟨b2, _ | ⟨c2, t2⟩⟩⟩
    · rfl
    · simp [base64Chars] at h
    · simp [base64Chars] at h
    · simp [base64Chars] at h
  | succ n ih =>
    intro xs ys hlen hx hy h
    rcases xs with _ | ⟨a, _ | ⟨b, _ | ⟨c, t⟩⟩⟩ <;>
      rcases ys with _ | ⟨a2, _ | ⟨b2, _ | ⟨c2, t2⟩⟩⟩
    · rfl
    · simp [base64Chars] at h
    · simp [base64Chars] at h
    · simp [base64Chars] at h
    · simp [base64Chars] at h
    · simp only [base64Chars] at h
      injection h with h1 h
      injection h with h2 h
      have ha : a < 256 := hx a (by simp)
      have ha2 : a2 < 256 := hy a2 (by simp)
      have e1 := b64char_inj (by omega) (by omega) h1
      have e2 := b64char_inj (by omega) (by omega) h2
      have hA : a = a2 := by omega
      rw [hA]
    · simp only [base64Chars] at h
      injection h with h1 h
      injection h with h2 h
      injection h with h3 h
      exact absurd h3.symm (b64char_ne_pad (by omega))
    · simp only [base64Chars] at h
      injection h with h1 h
      injection h with h2 h
      injection h with h3 h
      injection h with h4 h
      exact absurd h4.symm (b64char_ne_pad (by omega))
    · simp [base64Chars] at h
    · simp only [base64Chars] at h
      injection h with h1 h
      injection h with h2 h
      injection h with h3 h
      exact absurd h3 (b64char_ne_pad (by omega))
    · simp only [base64Chars] at h
      injection h with h1 h
      injection h with h2 h
      injection h with h3 h
      have ha : a < 256 := hx a (by simp)
      have hb : b < 256 := hx b (by simp)
      have ha2 : a2 < 256 := hy a2 (by simp)
      have hb2 : b2 < 256 := hy b2 (by simp)
      have e1 := b64char_inj (by omega) (by omega) h1
      have e2 := b64char_inj (by omega) (by omega) h2
      have e3 := b64char_inj (by omega) (by omega) h3
      have hA : a = a2 := by omega
      have hB : b = b2 := by omega
      rw [hA, hB]
    · simp only [base64Chars] at h
      injection h with h1 h
      injection h with h2 h
      injection h with h3 h
      injection h with h4 h
      exact absurd h4.symm (b64char_ne_pad (by omega))
    · simp [base64Chars] at h
    · simp only [base64Chars] at h
      injection h with h1 h
      injection h with h2 h
      injection h with h3 h
      injection h with h4 h
      exact absurd h4 (b64char_ne_pad (by omega))
    · simp only [base64Chars] at h
      injection h with h1 h
      injection h with h2 h
      injection h with h3 h
      injection h with h4 h
      exact absurd h4 (b64char_ne_pad (by omega))
    · simp only [base64Chars] at h
      injection h with h1 h
      injection h with h2 h
      injection h with h3 h
      injection h with h4 h5
      have ha : a < 256 := hx a (by simp)
      have hb : b < 256 := hx b (by simp)
      have hc : c < 256 := hx c (by simp)
      have ha2 : a2 < 256 := hy a2 (by simp)
      have hb2 : b2 < 256 := hy b2 (by simp)
      have hc2 : c2 < 256 := hy c2 (by simp)
      have e1 := b64char_inj (by omega) (by omega) h1
      have e2 := b64char_inj (by omega) (by omega) h2
      have e3 := b64char_inj (by omega) (by omega) h3
      have e4 := b64char_inj (by omega) (by omega) h4
      have hlt : t.length ≤ n := by
        simp only [List.length_cons] at hlen
        omega
      have ht : t = t2 :=
        ih t t2 hlt (fun x hm => hx x (by simp [hm])) (fun x hm => hy x (by simp [hm])) h5
      have hA : a = a2 := by omega
      have hB : b = b2 := by omega
      have hC : c = c2 := by omega
      rw [hA, hB, hC, ht]

theorem base64Encode_inj {xs ys : List Nat} (hx : IsBytes xs) (hy : IsBytes ys)
    (h : base64Encode xs = base64Encode ys) : xs = ys :=
  base64Chars_inj_n xs.length xs ys le_rfl hx hy (congrArg String.data h)

/-- C3: the key identifier is a deterministic function of the modulus and
exponent alone (no random or per-context input appears in it), and,
provided the digest function does not collide on the two canonical key
encodings in question (the collision-resistance idealization) and produces
byte lists, two keys receive the same identifier exactly when their modulus
and exponent agree. -/
theorem keyID_eq_iff (sha : List Nat → List Nat) (k1 k2 : RSAPublicKey)
    (hb1 : IsBytes (sha (asn1Marshal k1))) (hb2 : IsBytes (sha (asn1Marshal k2)))
    (hcoll : sha (asn1Marshal k1) = sha (asn1Marshal k2) →
      asn1Marshal k1 = asn1Marshal k2) :
    rsaoaep.keyID sha k1 = rsaoaep.keyID sha k2 ↔ k1.N = k2.N ∧ k1.E = k2.E := by
  constructor
  · intro h
    have hdig := base64Encode_inj hb1 hb2 h
    have hk := asn1Marshal_inj (hcoll hdig)
    rw [hk]
    exact ⟨rfl, rfl⟩
  · rintro ⟨hn, he⟩
    have hk : k1 = k2 := by
      cases k1
      cases k2
      simp_all
    rw [hk]

theorem keyID_eq_iff_witness :
    (rsaoaep.keyID (fun _ => []) ⟨3233, 17⟩ = rsaoaep.keyID (fun _ => []) ⟨3233, 17⟩ ↔
      (3233 : Nat) = 3233 ∧ (17 : Nat) = 17) :=
  keyID_eq_iff (fun _ => []) ⟨3233, 17⟩ ⟨3233, 17⟩
    (by intro x hx; simp at hx) (by intro x hx; simp at hx) (fun _ => rfl)

/-- C10: the key identifier function of the rsaoaep package (used by the
recipient when writing a stanza) and the one of the gcpkms package (used by
the registry when indexing fetched keys) agree on every key and every digest
function: both base64-encode the digest of the DER-marshalled public key, so
a stanza written by one is resolvable by the other. -/
theorem keyID_agree (sha : List Nat → List Nat) (key : RSAPublicKey) :
    rsaoaep.keyID sha key = gcpkms.keyID sha key := rfl

/-- C2: a successful Wrap emits exactly one stanza, whose type is the
protocol literal, whose argument list is exactly the identifier of the
wrapping key, and whose body is the ciphertext with the modulus length in
bytes, given that the OAEP encryption respects the RSA ciphertext length (a
documented property of rsa.EncryptOAEP, stated as a hypothesis on the
abstract scheme). -/
theorem wrap_stanza_shape (sha : List Nat → List Nat)
    (encryptOAEP : RSAPublicKey → List Nat → Except String (List Nat))
    (hlen : ∀ k msg ct, encryptOAEP k msg = .ok ct → ct.length = rsaSize k)
    (key : RSAPublicKey) (fileKey ct : List Nat)
    (henc : encryptOAEP key fileKey = .ok ct) :
    rsaoaep.Wrap encryptOAEP (rsaoaep.NewRecipient sha key) fileKey =
        .ok [⟨"kms-rsa-oaep-sha256", [rsaoaep.keyID sha key], ct⟩] ∧
      ct.length = rsaSize key := by
  constructor
  · simp [rsaoaep.Wrap, rsaoaep.NewRecipient, henc]
  · exact hlen key fileKey ct henc

theorem rsaSize_eq (key : RSAPublicKey) : rsaSize key = (Nat.size key.N + 7) / 8 := rfl

theorem wsize_3233 : rsaSize ⟨3233, 17⟩ = 2 := by
  have h12 : Nat.size (3233 : Nat) = 12 :=
    le_antisymm (Nat.size_le.mpr (by norm_num)) (Nat.lt_size.mpr (by norm_num))
  rw [rsaSize_eq, show (⟨3233, 17⟩ : RSAPublicKey).N = 3233 from rfl, h12]

theorem wrap_stanza_shape_witness :
    (rsaoaep.Wrap w2enc (rsaoaep.NewRecipient (fun _ => []) ⟨3233, 17⟩) [1] =
        .ok [⟨"kms-rsa-oaep-sha256", [rsaoaep.keyID (fun _ => []) ⟨3233, 17⟩], [0, 0]⟩] ∧
      ([0, 0] : List Nat).length = rsaSize ⟨3233, 17⟩) :=
  wrap_stanza_shape (fun _ => []) w2enc
    (fun k msg ct h => by
      injection h with h2
      rw [← h2, List.length_replicate])
    ⟨3233, 17⟩ [1] [0, 0]
    (by
      have h2 : List.replicate (rsaSize ⟨3233, 17⟩) 0 = ([0, 0] : List Nat) := by
        rw [wsize_3233]
        rfl
      rw [show ∀ msg, w2enc ⟨3233, 17⟩ msg = .ok (List.replicate (rsaSize ⟨3233, 17⟩) 0)
          from fun _ => rfl, h2])

/-- C1: round trip. With the wrapping key registered in the registry under
some resource name, and a backend whose decrypt operation inverts the OAEP
encryption of the stanza (returning the original content key for the
produced ciphertext), Unwrap applied to the stanza list produced by Wrap
returns exactly the wrapped content key. -/
theorem unwrap_wrap_roundtrip (sha : List Nat → List Nat)
    (encryptOAEP : RSAPublicKey → List Nat → Except String (List Nat))
    (key : RSAPublicKey) (c : Client) (name : String)
    (fileKey ct : List Nat) (stanzas : List Stanza)
    (hreg : c.nameByKeyID.lookup (rsaoaep.keyID sha key) = some name)
    (henc : encryptOAEP key fileKey = .ok ct)
    (hdec : ∀ req : AsymmetricDecryptRequest, req.Name = name → req.Ciphertext = ct →
      ∃ resp, c.asymmetricDecrypt req = .ok resp ∧ resp.Plaintext = fileKey)
    (hwrap : rsaoaep.Wrap encryptOAEP (rsaoaep.NewRecipient sha key) fileKey =
      .ok stanzas) :
    (Unwrap c stanzas).1 = .ok fileKey := by
  have hs : stanzas = [⟨"kms-rsa-oaep-sha256", [rsaoaep.keyID sha key], ct⟩] := by
    simp [rsaoaep.Wrap, rsaoaep.NewRecipient, henc] at hwrap
    exact hwrap.symm
  subst hs
  obtain ⟨resp, hre, hpl⟩ := hdec ⟨name, ct, Int.ofNat (crc32c ct)⟩ rfl rfl
  rw [Unwrap_match_ok c ⟨"kms-rsa-oaep-sha256", [rsaoaep.keyID sha key], ct⟩ []
    name resp rfl rfl hreg hre, hpl]

theorem unwrap_wrap_roundtrip_witness :
    (Unwrap w1client
        [⟨"kms-rsa-oaep-sha256", [rsaoaep.keyID (fun _ => []) w1key], [9]⟩]).1 =
      .ok [5, 6] :=
  unwrap_wrap_roundtrip (fun _ => []) w1enc w1key w1client "kname" [5, 6] [9]
    [⟨"kms-rsa-oaep-sha256", [rsaoaep.keyID (fun _ => []) w1key], [9]⟩]
    (by simp [w1client, List.lookup]) rfl
    (fun req _ _ => ⟨⟨[5, 6], 0⟩, rfl, rfl⟩) rfl

theorem addKeys_first_error (env : gcpkms.BuildEnv) (sha : List Nat → List Nat) :
    ∀ (names : List String) (i : Nat) (hi : i < names.length)
      (m : List (String × String)) (e : gcpkms.AddKeyErr),
      (∀ j (hj : j < i), ∀ m2, ∃ m3,
        gcpkms.addKey env sha m2 (names.get ⟨j, hj.trans hi⟩) = .ok m3) →
      (∀ m2, gcpkms.addKey env sha m2 (names.get ⟨i, hi⟩) = .error e) →
      gcpkms.addKeys env sha m names = .error (.keyProblem (names.get ⟨i, hi⟩) e) := by
  intro names
  induction names with
  | nil =>
    intro i hi
    simp at hi
  | cons name rest ih =>
    intro i hi m e hprev herr
    cases i with
    | zero =>
      have h0 := herr m
      simp only [gcpkms.addKeys]
      have hg : (name :: rest).get ⟨0, hi⟩ = name := rfl
      rw [hg] at h0
      rw [h0]
      rw [hg]
    | succ j =>
      obtain ⟨m3, hm3⟩ := hprev 0 (Nat.succ_pos j) m
      have hg : (name :: rest).get ⟨0, Nat.lt_of_lt_of_le (Nat.succ_pos j) (Nat.le_of_lt hi)⟩ = name := rfl
      simp only [gcpkms.addKeys]
      rw [show gcpkms.addKey env sha m name = .ok m3 from hm3]
      have hj : j < rest.length := Nat.succ_lt_succ_iff.mp hi
      exact ih j hj m3 e
        (fun j2 hj2 m2 => hprev (j2 + 1) (Nat.succ_lt_succ hj2) m2)
        herr

/-- C7: with the KMS client constructed and every name before position i
addable, if the addKey step at position i fails then the whole NewClient
build fails with that error wrapped with the offending configured name (no
partial registry is returned); in particular, when the fetched algorithm tag
at position i is not one of the three supported RSA-OAEP-SHA256 variants,
the build fails with the unsupported-key-type error for that name. -/
theorem newClient_first_error (env : gcpkms.BuildEnv) (sha : List Nat → List Nat)
    (names : List String) (i : Nat) (hi : i < names.length)
    (hkms : env.newKeyManagementClient = .ok ())
    (hprev : ∀ j (hj : j < i), ∀ m2, ∃ m3,
      gcpkms.addKey env sha m2 (names.get ⟨j, hj.trans hi⟩) = .ok m3) :
    (∀ e, (∀ m2, gcpkms.addKey env sha m2 (names.get ⟨i, hi⟩) = .error e) →
      gcpkms.NewClient env sha names =
        .error (.keyProblem (names.get ⟨i, hi⟩) e)) ∧
    (∀ resp s, env.getPublicKey (names.get ⟨i, hi⟩) = .ok resp →
      resp.Algorithm = .otherAlg s →
      gcpkms.NewClient env sha names =
        .error (.keyProblem (names.get ⟨i, hi⟩) (.unsupportedKeyType s))) := by
  constructor
  · intro e herr
    simp only [gcpkms.NewClient, hkms]
    rw [addKeys_first_error env sha names i hi [] e hprev herr]
  · intro resp s hresp halg
    have herr : ∀ m2, gcpkms.addKey env sha m2 (names.get ⟨i, hi⟩) =
        .error (.unsupportedKeyType s) := by
      intro m2
      simp only [gcpkms.addKey, hresp, halg]
    simp only [gcpkms.NewClient, hkms]
    rw [addKeys_first_error env sha names i hi [] _ hprev herr]

theorem newClient_first_error_witness :
    gcpkms.NewClient w7env (fun _ => []) ["projects/p/keys/bad"] =
      .error (.keyProblem "projects/p/keys/bad"
        (.unsupportedKeyType "GOOGLE_SYMMETRIC_ENCRYPTION")) :=
  (newClient_first_error w7env (fun _ => []) ["projects/p/keys/bad"] 0 (by decide)
      rfl (fun j hj => absurd hj (Nat.not_lt_zero j))).2
    ⟨.otherAlg "GOOGLE_SYMMETRIC_ENCRYPTION", "pem", "projects/p/keys/bad"⟩
    "GOOGLE_SYMMETRIC_ENCRYPTION" rfl rfl

/-- C8: parsePEMEncodedRSAPublicKey fails when the PEM decode yields no
block, when the decoded block label is not the expected literal, when PKIX
parsing of the block bytes fails, and when PKIX parsing succeeds but yields
key material that is not an RSA public key; and a decoded block with the
right label whose bytes PKIX-parse to an RSA public key is accepted and
yields exactly that key. -/
theorem parsePEM_cases (env : gcpkms.ParseEnv) (pemBytes : String) :
    (env.pemDecode pemBytes = none →
      gcpkms.parsePEMEncodedRSAPublicKey env pemBytes =
        .error "no PEM blocks found") ∧
    (∀ block, env.pemDecode pemBytes = some block → block.Ty ≠ "RSA PUBLIC KEY" →
      gcpkms.parsePEMEncodedRSAPublicKey env pemBytes =
        .error ("found unexpected \"" ++ block.Ty ++ "\" PEM block")) ∧
    (∀ block e, env.pemDecode pemBytes = some block → block.Ty = "RSA PUBLIC KEY" →
      env.parsePKIX block.Bytes = .error e →
      gcpkms.parsePEMEncodedRSAPublicKey env pemBytes = .error e) ∧
    (∀ block kind, env.pemDecode pemBytes = some block →
      block.Ty = "RSA PUBLIC KEY" →
      env.parsePKIX block.Bytes = .ok (.otherKey kind) →
      gcpkms.parsePEMEncodedRSAPublicKey env pemBytes =
        .error "failed to parse \"RSA PUBLIC KEY\"") ∧
    (∀ block key, env.pemDecode pemBytes = some block →
      block.Ty = "RSA PUBLIC KEY" →
      env.parsePKIX block.Bytes = .ok (.rsa key) →
      gcpkms.parsePEMEncodedRSAPublicKey env pemBytes = .ok key) := by
  refine ⟨?_, ?_, ?_, ?_, ?_⟩
  · intro h
    simp [gcpkms.parsePEMEncodedRSAPublicKey, h]
  · intro block h hty
    simp [gcpkms.parsePEMEncodedRSAPublicKey, h, hty]
  · intro block e h hty hp
    simp [gcpkms.parsePEMEncodedRSAPublicKey, h, hty, hp]
  · intro block kind h hty hp
    simp [gcpkms.parsePEMEncodedRSAPublicKey, h, hty, hp]
  · intro block key h hty hp
    simp [gcpkms.parsePEMEncodedRSAPublicKey, h, hty, hp]

end AgeKMS
